import Mathlib

/-!
Shallow embedding of the SFTP-SYNC synchronization engine
(src/sync.rs, src/security.rs, src/connection.rs, src/model.rs).

Modelling conventions:
* `PathBuf` is modelled as `RPath`: an absolute flag plus a list of
  components (Unix semantics, which is what the engine targets).
* `SystemTime` is modelled as a `Nat` counting milliseconds since the
  epoch; `Duration::from_millis(500)` is the literal `500`.
* `HashMap<PathBuf, FileEntry>` (the `FileIndex`) is modelled as an
  association list of `FileEntry` keyed by the `path` field, with
  `insert` replacing the entry for an existing key in place.
* Fallible operations (`anyhow::Result`) are `Except String`.
* External effects (network dial, SSH handshake, SFTP round trips,
  filesystem reads/writes) are passed in as oracle functions or
  explicit outcome parameters, so every definition is executable.
-/

namespace SftpSync

/-- Model of Rust `PathBuf`: `absolute` marks a leading separator; the
components are the normal path segments in order. -/
structure RPath where
  absolute : Bool
  components : List String
deriving DecidableEq, Repr

/-- Rust `Path::as_os_str().is_empty()`: only the relative path with no
components renders as the empty string. -/
def RPath.isEmptyPath (p : RPath) : Bool :=
  !p.absolute && p.components.isEmpty

/-- Rust `Path::join`: pushing an absolute path replaces, otherwise the
components are appended. -/
def RPath.join (base q : RPath) : RPath :=
  if q.absolute then q else ⟨base.absolute, base.components ++ q.components⟩

/-- Rust `Path::parent().unwrap_or("")`: drop the last component; a path
with no components has no parent and yields the empty path. -/
def RPath.parent (p : RPath) : RPath :=
  if p.components.isEmpty then ⟨false, []⟩ else ⟨p.absolute, p.components.dropLast⟩

/-- Rust `Path::display` restricted to this model (Unix rendering). -/
def RPath.display (p : RPath) : String :=
  (if p.absolute then "/" else "") ++ String.intercalate "/" p.components

inductive EntryKind where
  | file
  | directory
deriving DecidableEq, Repr

/-- `FileEntry` from src/sync.rs: one discovered file under a root. -/
structure FileEntry where
  path : RPath
  kind : EntryKind
  size : Nat
  modified : Nat
deriving DecidableEq, Repr

/-- `FileIndex = HashMap<PathBuf, FileEntry>` modelled as an association
list keyed by the `path` field. -/
abbrev FileIndex := List FileEntry

/-- `HashMap::get` on the association-list model: first entry with the
requested path. -/
def FileIndex.lookup (idx : FileIndex) (p : RPath) : Option FileEntry :=
  idx.find? (fun e => e.path == p)

/-- The FileIndex invariant: no two entries share a relative path. -/
def FileIndex.keysNodup (idx : FileIndex) : Prop :=
  (idx.map (fun e => e.path)).Nodup

instance (idx : FileIndex) : Decidable (FileIndex.keysNodup idx) :=
  inferInstanceAs (Decidable (List.Nodup _))

/-- `HashMap::insert`: replace the entry at an existing key, otherwise add. -/
def FileIndex.insertEntry (idx : FileIndex) (e : FileEntry) : FileIndex :=
  if (idx.find? (fun x => x.path == e.path)).isSome then
    idx.map (fun x => if x.path == e.path then e else x)
  else
    idx ++ [e]

/-- `index_entries` from src/sync.rs: collect a listing into a FileIndex. -/
def index_entries (entries : List FileEntry) : FileIndex :=
  entries.foldl FileIndex.insertEntry ([] : FileIndex)

inductive SyncDirection where
  | push
  | pull
  | bidirectional
deriving DecidableEq, Repr

/-- `SyncRule` from src/model.rs (`local`/`remote` renamed `localRoot`/
`remoteRoot` since `local` is a Lean keyword). -/
structure SyncRule where
  localRoot : RPath
  remoteRoot : RPath
  direction : SyncDirection
deriving DecidableEq, Repr

/-- `SyncAction` from src/sync.rs. -/
inductive SyncAction where
  | upload (rel_path : RPath) (size : Nat)
  | download (rel_path : RPath) (size : Nat)
  | deleteRemote (rel_path : RPath)
  | deleteLocal (rel_path : RPath)
  | conflict (rel_path : RPath)
deriving DecidableEq, Repr

/-- The relative path named by an action (each variant carries one). -/
def SyncAction.relPath : SyncAction → RPath
  | .upload p _ => p
  | .download p _ => p
  | .deleteRemote p => p
  | .deleteLocal p => p
  | .conflict p => p

/-- `PlanStats` from src/sync.rs. -/
structure PlanStats where
  uploads : Nat
  downloads : Nat
  deletes_remote : Nat
  deletes_local : Nat
  conflicts : Nat
deriving DecidableEq, Repr

def PlanStats.zero : PlanStats := ⟨0, 0, 0, 0, 0⟩

/-- One action's contribution to the running stats, mirroring the inline
`stats.<field> += 1` increments of `diff_actions`. -/
def PlanStats.add (s : PlanStats) : SyncAction → PlanStats
  | .upload _ _ => { s with uploads := s.uploads + 1 }
  | .download _ _ => { s with downloads := s.downloads + 1 }
  | .deleteRemote _ => { s with deletes_remote := s.deletes_remote + 1 }
  | .deleteLocal _ => { s with deletes_local := s.deletes_local + 1 }
  | .conflict _ => { s with conflicts := s.conflicts + 1 }

/-- `newer` from src/sync.rs: `lhs.duration_since(rhs)` fails when
`lhs < rhs` (giving `false`), and otherwise the delta must strictly
exceed the 500 ms skew tolerance. Times are in milliseconds. -/
def newer (lhs rhs : Nat) : Bool :=
  rhs + 500 < lhs

/-- The local-side pass of `diff_actions` for one local entry: the action
(if any) emitted for that path. -/
def localAction (dir : SyncDirection) (remoteIdx : FileIndex) (le : FileEntry) :
    Option SyncAction :=
  match FileIndex.lookup remoteIdx le.path with
  | none =>
    match dir with
    | .push => some (.upload le.path le.size)
    | .pull => some (.deleteLocal le.path)
    | .bidirectional => some (.upload le.path le.size)
  | some re =>
    match dir with
    | .push =>
      if newer le.modified re.modified then some (.upload le.path le.size) else none
    | .pull =>
      if newer re.modified le.modified then some (.download le.path re.size) else none
    | .bidirectional =>
      match newer le.modified re.modified, newer re.modified le.modified with
      | true, false => some (.upload le.path le.size)
      | false, true => some (.download le.path re.size)
      | true, true => some (.conflict le.path)
      | false, false => none

/-- The remote-side pass of `diff_actions` for one remote entry: skipped
when the path also exists locally, otherwise an action per direction. -/
def remoteAction (dir : SyncDirection) (localIdx : FileIndex) (re : FileEntry) :
    Option SyncAction :=
  if (FileIndex.lookup localIdx re.path).isSome then none
  else
    match dir with
    | .push => some (.deleteRemote re.path)
    | .pull => some (.download re.path re.size)
    | .bidirectional => some (.download re.path re.size)

/-- `diff_actions` from src/sync.rs: the local pass over the local index,
then the remote pass over the remote-only entries; the stats count the
emitted actions exactly as the inline increments do. -/
def diff_actions (rule : SyncRule) (localIdx remoteIdx : FileIndex) :
    List SyncAction × PlanStats :=
  let localActs := localIdx.filterMap (localAction rule.direction remoteIdx)
  let remoteActs := remoteIdx.filterMap (remoteAction rule.direction localIdx)
  let acts := localActs ++ remoteActs
  (acts, acts.foldl PlanStats.add PlanStats.zero)

/-- The sub-list of a plan's actions naming a given relative path. -/
def pathActions (acts : List SyncAction) (p : RPath) : List SyncAction :=
  acts.filter (fun a => a.relPath == p)

/-- `resolve_remote_root` from src/sync.rs. -/
def resolve_remote_root (base_path rule_remote : RPath) : RPath :=
  if rule_remote.absolute then rule_remote
  else if base_path.isEmptyPath then rule_remote
  else if rule_remote.isEmptyPath then base_path
  else base_path.join rule_remote

/-- `SyncPlan` from src/sync.rs. -/
structure SyncPlan where
  rule : SyncRule
  actions : List SyncAction
  stats : PlanStats
deriving DecidableEq, Repr

/-- `SyncPlanner::plan` from src/sync.rs: list both roots (each listing
modelled as an oracle from the root to a fallible listing result), index
them, and diff.  Listing failures propagate with `?`. -/
def SyncPlanner.plan (localList remoteList : RPath → Except String (List FileEntry))
    (rule : SyncRule) : Except String SyncPlan :=
  match localList rule.localRoot with
  | .error e => .error e
  | .ok localEntries =>
    match remoteList rule.remoteRoot with
    | .error e => .error e
    | .ok remoteEntries =>
      let localIndex := index_entries localEntries
      let remoteIndex := index_entries remoteEntries
      let diffed := diff_actions rule localIndex remoteIndex
      .ok ⟨rule, diffed.1, diffed.2⟩

/-- One run of `SyncPlanner::plan` with the HashMap iteration order made
explicit.  Rust's `std::collections::HashMap` seeds its hasher per
instance, so the order in which `diff_actions` traverses a freshly built
index is not determined by the listing alone; a run is therefore
parametrized by `localIter`/`remoteIter`, the reorderings the two maps'
iterations impose on the built indexes (content-preserving permutations
for any real seed).  `SyncPlanner.plan` is the run whose iteration
orders are the insertion orders (`planRun_id`). -/
def SyncPlanner.planRun (localIter remoteIter : FileIndex → FileIndex)
    (localList remoteList : RPath → Except String (List FileEntry))
    (rule : SyncRule) : Except String SyncPlan :=
  match localList rule.localRoot with
  | .error e => .error e
  | .ok localEntries =>
    match remoteList rule.remoteRoot with
    | .error e => .error e
    | .ok remoteEntries =>
      let localIndex := localIter (index_entries localEntries)
      let remoteIndex := remoteIter (index_entries remoteEntries)
      let diffed := diff_actions rule localIndex remoteIndex
      .ok ⟨rule, diffed.1, diffed.2⟩

/-- A byte string (Rust `Vec<u8>`): a list of byte values. -/
abbrev Bytes := List Nat

/-- One Local/Remote Store capability (src/sync.rs traits `LocalStore` /
`RemoteStore`): each operation takes a root and a root-relative path and
may fail.  The oracles are stateless because the claims below concern the
executor's control flow and emitted operations, not store-state
evolution. -/
structure StoreModel where
  read_file : RPath → RPath → Except String Bytes
  write_file : RPath → RPath → Bytes → Except String Unit
  remove_file : RPath → RPath → Except String Unit
  ensure_dir : RPath → RPath → Except String Unit

/-- A store operation issued by the executor, tagged with the side it hit
(`remoteSide = true` for the Remote Store). -/
inductive StoreOp where
  | read (remoteSide : Bool) (root rel : RPath)
  | write (remoteSide : Bool) (root rel : RPath) (bytes : Bytes)
  | remove (remoteSide : Bool) (root rel : RPath)
  | ensureDir (remoteSide : Bool) (root rel : RPath)
deriving DecidableEq, Repr

/-- `ActionStatus` from src/sync.rs. -/
inductive ActionStatus where
  | applied
  | skippedConflict
  | failed (reason : String)
deriving DecidableEq, Repr

/-- `ExecutionLog` from src/sync.rs. -/
structure ExecutionLog where
  action : SyncAction
  status : ActionStatus
deriving DecidableEq, Repr

/-- One iteration of `SyncExecutor::execute`'s map over the plan's
actions: the resulting status together with the store operations issued
while processing this action.  The bandwidth throttle touches only the
limiter, never a store, so it contributes no operation. -/
def runAction (localS remoteS : StoreModel) (rule : SyncRule) :
    SyncAction → ActionStatus × List StoreOp
  | .upload rel _ =>
    match localS.read_file rule.localRoot rel with
    | .error e => (.failed e, [.read false rule.localRoot rel])
    | .ok bytes =>
      let parent := rel.parent
      match remoteS.ensure_dir rule.remoteRoot parent with
      | .error e =>
        (.failed e, [.read false rule.localRoot rel, .ensureDir true rule.remoteRoot parent])
      | .ok _ =>
        match remoteS.write_file rule.remoteRoot rel bytes with
        | .error e =>
          (.failed e,
            [.read false rule.localRoot rel, .ensureDir true rule.remoteRoot parent,
              .write true rule.remoteRoot rel bytes])
        | .ok _ =>
          (.applied,
            [.read false rule.localRoot rel, .ensureDir true rule.remoteRoot parent,
              .write true rule.remoteRoot rel bytes])
  | .download rel _ =>
    match remoteS.read_file rule.remoteRoot rel with
    | .error e => (.failed e, [.read true rule.remoteRoot rel])
    | .ok bytes =>
      let parent := rel.parent
      match localS.ensure_dir rule.localRoot parent with
      | .error e =>
        (.failed e, [.read true rule.remoteRoot rel, .ensureDir false rule.localRoot parent])
      | .ok _ =>
        match localS.write_file rule.localRoot rel bytes with
        | .error e =>
          (.failed e,
            [.read true rule.remoteRoot rel, .ensureDir false rule.localRoot parent,
              .write false rule.localRoot rel bytes])
        | .ok _ =>
          (.applied,
            [.read true rule.remoteRoot rel, .ensureDir false rule.localRoot parent,
              .write false rule.localRoot rel bytes])
  | .deleteRemote rel =>
    match remoteS.remove_file rule.remoteRoot rel with
    | .error e => (.failed e, [.remove true rule.remoteRoot rel])
    | .ok _ => (.applied, [.remove true rule.remoteRoot rel])
  | .deleteLocal rel =>
    match localS.remove_file rule.localRoot rel with
    | .error e => (.failed e, [.remove false rule.localRoot rel])
    | .ok _ => (.applied, [.remove false rule.localRoot rel])
  | .conflict _ => (.skippedConflict, [])

/-- `SyncExecutor::execute` from src/sync.rs: one `ExecutionLog` per
action of the plan, in plan order. -/
def SyncExecutor.execute (localS remoteS : StoreModel) (plan : SyncPlan) :
    List ExecutionLog :=
  plan.actions.map (fun action => ⟨action, (runAction localS remoteS plan.rule action).1⟩)

/-- The store operations issued while executing a plan, in order. -/
def SyncExecutor.executeTrace (localS remoteS : StoreModel) (plan : SyncPlan) :
    List StoreOp :=
  plan.actions.flatMap (fun action => (runAction localS remoteS plan.rule action).2)

/-! ### Host trust store (src/security.rs) and session establishment
(src/connection.rs) -/

/-- The persisted `KnownHosts` mapping, hostname → fingerprint, as an
association list. -/
abbrev KnownHosts := List (String × String)

def KnownHosts.lookup (hosts : KnownHosts) (host : String) : Option String :=
  (hosts.find? (fun kv => kv.1 == host)).map (fun kv => kv.2)

/-- `HashMap::insert` on the known-hosts mapping. -/
def KnownHosts.insertEntry (hosts : KnownHosts) (host fp : String) : KnownHosts :=
  if (hosts.find? (fun kv => kv.1 == host)).isSome then
    hosts.map (fun kv => if kv.1 == host then (kv.1, fp) else kv)
  else
    hosts ++ [(host, fp)]

/-- `HostCheck` from src/security.rs. -/
inductive HostCheck where
  | hmatch
  | hnew
  | mismatch (expected got : String)
deriving DecidableEq, Repr

/-- `verify_host` from src/security.rs.  The load/persist round trip
through the on-disk store is modelled by taking the loaded mapping as an
argument and returning the mapping as persisted. -/
def verify_host (hosts : KnownHosts) (host fingerprint : String) :
    HostCheck × KnownHosts :=
  match KnownHosts.lookup hosts host with
  | some stored =>
    if stored == fingerprint then (.hmatch, hosts)
    else (.mismatch stored fingerprint, hosts)
  | none => (.hnew, KnownHosts.insertEntry hosts host fingerprint)

/-- Lowercase hexadecimal digit for a value below 16. -/
def hexDigit (n : Nat) : Char :=
  if n < 10 then Char.ofNat (48 + n) else Char.ofNat (87 + n)

/-- Rust `format!("{byte:02x}")` for a byte value: exactly two lowercase
hex digits. -/
def byteToHex (b : Nat) : String :=
  String.mk [hexDigit (b / 16 % 16), hexDigit (b % 16)]

/-- `fingerprint_from_raw` from src/security.rs: the SHA-256 digest of
the raw key bytes, hex-encoded byte by byte.  The `sha2` crate is
external to the repository, so the digest function is an explicit
parameter. -/
def fingerprint_from_raw (sha256 : Bytes → Bytes) (key : Bytes) : String :=
  String.join ((sha256 key).map byteToHex)

/-- The post-handshake tail of `establish_session` from
src/connection.rs: the transport's presented host key (`session.host_key()`)
and the authentication outcome are oracle inputs; the known-hosts store is
threaded explicitly.  On success the updated store is returned together
with the established session (modelled as `Unit`). -/
def establish_session (sha256 : Bytes → Bytes) (hosts : KnownHosts) (host : String)
    (hostKey : Option Bytes) (authResult : Except String Unit) :
    Except String (KnownHosts × Unit) :=
  match hostKey with
  | some rawKey =>
    match verify_host hosts host (fingerprint_from_raw sha256 rawKey) with
    | (.mismatch expected got, _) =>
      .error ("host key mismatch for " ++ host ++ ". expected " ++ expected ++
        ", got " ++ got)
    | (_, hosts1) =>
      match authResult with
      | .error e => .error e
      | .ok _ => .ok (hosts1, ())
  | none =>
    match authResult with
    | .error e => .error e
    | .ok _ => .ok (hosts, ())

/-! ### Planning and execution orchestration (src/sync.rs) -/

/-- `PlanJobsResult` from src/sync.rs, with the job type abstract. -/
structure PlanJobsResult (Job : Type) where
  jobs : List Job
  warnings : List String

/-- The warning string pushed by `plan_jobs_with_progress` when planning
one rule fails. -/
def planWarning (targetName : String) (rule : SyncRule) (err : String) : String :=
  "Failed to plan rule " ++ rule.localRoot.display ++ " for " ++ targetName ++
    ": " ++ err

/-- The per-rule loop of `plan_jobs_with_progress`: successful plans are
collected in order, failures become warnings in order, and a failure
never stops the remaining rules. -/
def planLoop (Job : Type) (planRule : SyncRule → Except String Job)
    (targetName : String) : List SyncRule → List Job × List String
  | [] => ([], [])
  | r :: rs =>
    let rest := planLoop Job planRule targetName rs
    match planRule r with
    | .ok job => (job :: rest.1, rest.2)
    | .error err => (rest.1, planWarning targetName r err :: rest.2)

/-- `plan_jobs_with_progress` from src/sync.rs: connect (outcome given as
an oracle), plan each rule collecting warnings, and fail iff no rule
produced a job.  `plan_single_job` performs listing I/O and is therefore
an oracle parameter. -/
def plan_jobs_with_progress (Job : Type) (connect : Except String Unit)
    (planRule : SyncRule → Except String Job) (targetName : String)
    (rules : List SyncRule) : Except String (PlanJobsResult Job) :=
  match connect with
  | .error e => .error e
  | .ok _ =>
    let planned := planLoop Job planRule targetName rules
    if planned.1.isEmpty then
      .error ("no sync plan could be generated for " ++ targetName)
    else
      .ok ⟨planned.1, planned.2⟩

/-- `ExecutionSummary` from src/sync.rs. -/
structure ExecutionSummary where
  applied : Nat
  skipped : Nat
  failures : List (SyncAction × String)
deriving DecidableEq, Repr

def ExecutionSummary.zero : ExecutionSummary := ⟨0, 0, []⟩

/-- Fold one execution log entry into the running summary, as the match
inside `execute_jobs_with_progress` does. -/
def ExecutionSummary.add (s : ExecutionSummary) (log : ExecutionLog) :
    ExecutionSummary :=
  match log.status with
  | .applied => { s with applied := s.applied + 1 }
  | .skippedConflict => { s with skipped := s.skipped + 1 }
  | .failed reason => { s with failures := s.failures ++ [(log.action, reason)] }

/-- `execute_jobs_with_progress` from src/sync.rs.  Jobs are represented
by their plans (the only field execution reads).  The returned triple is
the ordered list of progress reports, the ordered store-operation trace,
and the function's result.  An empty jobs slice short-circuits before
the connection attempt; otherwise a connection failure aborts, and a
success executes every plan, folding the logs into the summary and
reporting progress after each action. -/
def execute_jobs_with_progress (connect : Except String Unit)
    (localS remoteS : StoreModel) (bandwidth_limit_mbps : Option Nat)
    (jobs : List SyncPlan) :
    List (Nat × Nat) × List StoreOp × Except String ExecutionSummary :=
  if jobs.isEmpty then ([(1, 1)], [], .ok ExecutionSummary.zero)
  else
    match connect with
    | .error e => ([], [], .error e)
    | .ok _ =>
      let _ := bandwidth_limit_mbps
      let totalActions := (jobs.map (fun j => j.actions.length)).sum
      let logs := jobs.flatMap (fun j => SyncExecutor.execute localS remoteS j)
      let trace := jobs.flatMap (fun j => SyncExecutor.executeTrace localS remoteS j)
      let summary := logs.foldl ExecutionSummary.add ExecutionSummary.zero
      let reports :=
        (0, max totalActions 1) ::
          (List.range logs.length).map (fun k => (k + 1, max totalActions 1))
      (reports, trace, .ok summary)

/-! ### Bandwidth limiter (src/sync.rs) -/

/-- `BandwidthLimiter` state from src/sync.rs.  The `f64` fields are
modelled as exact rationals; `last_check` is replaced by passing the
elapsed time into `consume` directly. -/
structure BandwidthLimiter where
  limit_per_sec : ℚ
  allowance : ℚ
deriving DecidableEq, Repr

/-- `BandwidthLimiter::new`: the allowance starts at the cap. -/
def BandwidthLimiter.new (limit_bytes_per_sec : ℚ) : BandwidthLimiter :=
  ⟨limit_bytes_per_sec, limit_bytes_per_sec⟩

/-- Rust `f64::clamp(lo, hi)`. -/
def rclamp (x lo hi : ℚ) : ℚ := min (max x lo) hi

/-- `BandwidthLimiter::consume` from src/sync.rs, over exact rationals:
returns the new limiter state and the number of seconds slept.  The
`is_finite && > 0` guard on the sleep maps to the positivity test (a
rational division by zero yields 0 here, matching the "infinite, so skip
the sleep" behaviour of the source). -/
def BandwidthLimiter.consume (st : BandwidthLimiter) (elapsed bytes : ℚ) :
    BandwidthLimiter × ℚ :=
  let allowance1 := min (st.allowance + elapsed * st.limit_per_sec) st.limit_per_sec
  if bytes ≤ allowance1 then
    ({ st with allowance := allowance1 - bytes }, 0)
  else
    let deficit := bytes - allowance1
    let sleep_seconds := deficit / st.limit_per_sec
    let slept := if 0 < sleep_seconds then sleep_seconds else 0
    ({ st with allowance := st.limit_per_sec - rclamp deficit 0 st.limit_per_sec },
      slept)

/-! ## Helper lemmas -/

theorem RPath.eq_empty_of_isEmptyPath {p : RPath} (h : p.isEmptyPath = true) :
    p = ⟨false, []⟩ := by
  cases p with
  | mk a c =>
    simp only [RPath.isEmptyPath, Bool.and_eq_true, Bool.not_eq_true', List.isEmpty_iff] at h
    simp [h.1, h.2]

theorem RPath.join_empty_left {q : RPath} (hq : q.absolute = false) :
    RPath.join ⟨false, []⟩ q = q := by
  cases q with
  | mk a c => simp only at hq; simp [RPath.join, hq]

theorem planLoop_eq_filterMap (Job : Type) (planRule : SyncRule → Except String Job)
    (targetName : String) (rules : List SyncRule) :
    planLoop Job planRule targetName rules =
      (rules.filterMap (fun r => (planRule r).toOption),
        rules.filterMap (fun r =>
          match planRule r with
          | .ok _ => none
          | .error e => some (planWarning targetName r e))) := by
  induction rules with
  | nil => rfl
  | cons r rs ih =>
    cases h : planRule r with
    | ok job => simp [planLoop, h, ih, Except.toOption]
    | error e => simp [planLoop, h, ih, Except.toOption]

theorem localAction_of_none {remoteIdx : FileIndex} {e : FileEntry}
    (hre : FileIndex.lookup remoteIdx e.path = none) (dir : SyncDirection) :
    localAction dir remoteIdx e =
      match dir with
      | .push => some (.upload e.path e.size)
      | .pull => some (.deleteLocal e.path)
      | .bidirectional => some (.upload e.path e.size) := by
  unfold localAction
  rw [hre]

theorem localAction_of_some {remoteIdx : FileIndex} {e re : FileEntry}
    (hre : FileIndex.lookup remoteIdx e.path = some re) (dir : SyncDirection) :
    localAction dir remoteIdx e =
      match dir with
      | .push =>
        if newer e.modified re.modified then some (.upload e.path e.size) else none
      | .pull =>
        if newer re.modified e.modified then some (.download e.path re.size) else none
      | .bidirectional =>
        match newer e.modified re.modified, newer re.modified e.modified with
        | true, false => some (.upload e.path e.size)
        | false, true => some (.download e.path re.size)
        | true, true => some (.conflict e.path)
        | false, false => none := by
  unfold localAction
  rw [hre]

theorem remoteAction_of_some {localIdx : FileIndex} {e le : FileEntry}
    (hle : FileIndex.lookup localIdx e.path = some le) (dir : SyncDirection) :
    remoteAction dir localIdx e = none := by
  unfold remoteAction
  rw [hle]
  rfl

theorem remoteAction_of_none {localIdx : FileIndex} {e : FileEntry}
    (hle : FileIndex.lookup localIdx e.path = none) (dir : SyncDirection) :
    remoteAction dir localIdx e =
      match dir with
      | .push => some (.deleteRemote e.path)
      | .pull => some (.download e.path e.size)
      | .bidirectional => some (.download e.path e.size) := by
  unfold remoteAction
  rw [hle]
  rfl

theorem localAction_relPath (dir : SyncDirection) (remoteIdx : FileIndex)
    (e : FileEntry) (a : SyncAction) (h : localAction dir remoteIdx e = some a) :
    a.relPath = e.path := by
  rcases hre : FileIndex.lookup remoteIdx e.path with _ | re
  · rw [localAction_of_none hre] at h
    cases dir <;> (cases h; rfl)
  · rw [localAction_of_some hre] at h
    cases dir
    · by_cases hn : newer e.modified re.modified
      · rw [if_pos hn] at h
        cases h
        rfl
      · rw [if_neg hn] at h
        simp at h
    · by_cases hn : newer re.modified e.modified
      · rw [if_pos hn] at h
        cases h
        rfl
      · rw [if_neg hn] at h
        simp at h
    · cases hb1 : newer e.modified re.modified <;>
        cases hb2 : newer re.modified e.modified <;>
        rw [hb1, hb2] at h
      · simp at h
      · cases h
        rfl
      · cases h
        rfl
      · cases h
        rfl

theorem remoteAction_relPath (dir : SyncDirection) (localIdx : FileIndex)
    (e : FileEntry) (a : SyncAction) (h : remoteAction dir localIdx e = some a) :
    a.relPath = e.path := by
  rcases hle : FileIndex.lookup localIdx e.path with _ | le
  · rw [remoteAction_of_none hle] at h
    cases dir <;> (cases h; rfl)
  · rw [remoteAction_of_some hle] at h
    simp at h

theorem filterMap_pathFilter (f : FileEntry → Option SyncAction)
    (hf : ∀ e a, f e = some a → a.relPath = e.path) (p : RPath) :
    ∀ idx : List FileEntry,
      (idx.filterMap f).filter (fun a => a.relPath == p) =
        (idx.filter (fun e => e.path == p)).filterMap f
  | [] => rfl
  | e :: rest => by
    have ih := filterMap_pathFilter f hf p rest
    cases h : f e with
    | none =>
      by_cases hp : e.path = p <;>
        simp [List.filterMap_cons, h, List.filter_cons, hp, ih]
    | some a =>
      have hpa := hf e a h
      by_cases hp : e.path = p <;>
        simp [List.filterMap_cons, h, List.filter_cons, hp, hpa, ih]

theorem lookup_some_path {idx : FileIndex} {p : RPath} {e : FileEntry}
    (h : FileIndex.lookup idx p = some e) : e.path = p := by
  have := List.find?_some h
  simpa using this

theorem lookup_none_not_mem {idx : FileIndex} {p : RPath}
    (h : FileIndex.lookup idx p = none) : ∀ e ∈ idx, e.path ≠ p := by
  intro e he
  have := List.find?_eq_none.mp h e he
  simpa using this

theorem filter_path_nil {idx : FileIndex} {p : RPath}
    (h : ∀ e ∈ idx, e.path ≠ p) :
    idx.filter (fun e => e.path == p) = [] := by
  rw [List.filter_eq_nil_iff]
  intro e he
  simpa using h e he

theorem filter_path_single {idx : FileIndex} {p : RPath} {le : FileEntry}
    (hnd : FileIndex.keysNodup idx) (hl : FileIndex.lookup idx p = some le) :
    idx.filter (fun e => e.path == p) = [le] := by
  induction idx with
  | nil => exact absurd hl (by simp [FileIndex.lookup])
  | cons e rest ih =>
    have hnd' : (e.path :: rest.map (fun x => x.path)).Nodup := hnd
    rw [List.nodup_cons] at hnd'
    by_cases hp : e.path = p
    · have hle : e = le := by
        have : FileIndex.lookup (e :: rest) p = some e := by
          simp [FileIndex.lookup, List.find?_cons, hp]
        rw [this] at hl
        exact Option.some.inj hl
      subst hle
      have hrest : rest.filter (fun x => x.path == p) = [] := by
        apply filter_path_nil
        intro x hx hxp
        exact hnd'.1 (hp ▸ hxp ▸ List.mem_map_of_mem (fun y => y.path) hx)
      simp [List.filter_cons, hp, hrest]
    · have hl' : FileIndex.lookup rest p = some le := by
        simpa [FileIndex.lookup, List.find?_cons, hp] using hl
      have := ih hnd'.2 hl'
      simp [List.filter_cons, hp, this]

theorem pathActions_diff (rule : SyncRule) (localIdx remoteIdx : FileIndex) (p : RPath) :
    pathActions (diff_actions rule localIdx remoteIdx).1 p =
      (localIdx.filter (fun e => e.path == p)).filterMap
          (localAction rule.direction remoteIdx) ++
        (remoteIdx.filter (fun e => e.path == p)).filterMap
          (remoteAction rule.direction localIdx) := by
  unfold diff_actions pathActions
  rw [List.filter_append,
    filterMap_pathFilter _ (localAction_relPath rule.direction remoteIdx) p,
    filterMap_pathFilter _ (remoteAction_relPath rule.direction localIdx) p]

theorem diff_mem_cases {rule : SyncRule} {localIdx remoteIdx : FileIndex}
    {a : SyncAction} (h : a ∈ (diff_actions rule localIdx remoteIdx).1) :
    (∃ e ∈ localIdx, localAction rule.direction remoteIdx e = some a) ∨
      (∃ e ∈ remoteIdx, remoteAction rule.direction localIdx e = some a) := by
  unfold diff_actions at h
  simpa [List.mem_append, List.mem_filterMap] using h

theorem localAction_push_shape {remoteIdx : FileIndex} {e : FileEntry} {a : SyncAction}
    (h : localAction .push remoteIdx e = some a) : ∃ q s, a = .upload q s := by
  rcases hre : FileIndex.lookup remoteIdx e.path with _ | re
  · rw [localAction_of_none hre .push] at h
    cases h
    exact ⟨_, _, rfl⟩
  · rw [localAction_of_some hre .push] at h
    by_cases hn : newer e.modified re.modified
    · rw [if_pos hn] at h
      cases h
      exact ⟨_, _, rfl⟩
    · rw [if_neg hn] at h
      simp at h

theorem remoteAction_push_shape {localIdx : FileIndex} {e : FileEntry} {a : SyncAction}
    (h : remoteAction .push localIdx e = some a) : ∃ q, a = .deleteRemote q := by
  rcases hle : FileIndex.lookup localIdx e.path with _ | le
  · rw [remoteAction_of_none hle .push] at h
    cases h
    exact ⟨_, rfl⟩
  · rw [remoteAction_of_some hle .push] at h
    simp at h

theorem localAction_pull_shape {remoteIdx : FileIndex} {e : FileEntry} {a : SyncAction}
    (h : localAction .pull remoteIdx e = some a) :
    (∃ q, a = .deleteLocal q) ∨ ∃ q s, a = .download q s := by
  rcases hre : FileIndex.lookup remoteIdx e.path with _ | re
  · rw [localAction_of_none hre .pull] at h
    cases h
    exact Or.inl ⟨_, rfl⟩
  · rw [localAction_of_some hre .pull] at h
    by_cases hn : newer re.modified e.modified
    · rw [if_pos hn] at h
      cases h
      exact Or.inr ⟨_, _, rfl⟩
    · rw [if_neg hn] at h
      simp at h

theorem remoteAction_pull_shape {localIdx : FileIndex} {e : FileEntry} {a : SyncAction}
    (h : remoteAction .pull localIdx e = some a) : ∃ q s, a = .download q s := by
  rcases hle : FileIndex.lookup localIdx e.path with _ | le
  · rw [remoteAction_of_none hle .pull] at h
    cases h
    exact ⟨_, _, rfl⟩
  · rw [remoteAction_of_some hle .pull] at h
    simp at h

theorem planRun_id (localList remoteList : RPath → Except String (List FileEntry))
    (rule : SyncRule) :
    SyncPlanner.planRun id id localList remoteList rule =
      SyncPlanner.plan localList remoteList rule := rfl

theorem statsAdd_rightComm (s : PlanStats) (a b : SyncAction) :
    PlanStats.add (PlanStats.add s a) b = PlanStats.add (PlanStats.add s b) a := by
  cases a <;> cases b <;> rfl

theorem foldl_statsAdd_perm {l1 l2 : List SyncAction} (h : l1.Perm l2) :
    ∀ s : PlanStats, l1.foldl PlanStats.add s = l2.foldl PlanStats.add s := by
  induction h with
  | nil => intro s; rfl
  | cons a _ ih => intro s; simp only [List.foldl_cons]; exact ih _
  | swap a b l =>
    intro s
    simp only [List.foldl_cons]
    rw [statsAdd_rightComm]
  | trans _ _ ih1 ih2 => intro s; rw [ih1, ih2]

theorem mem_path_unique {idx : FileIndex} (hnd : FileIndex.keysNodup idx)
    {e e2 : FileEntry} (he : e ∈ idx) (he2 : e2 ∈ idx) (hp : e.path = e2.path) :
    e = e2 :=
  List.inj_on_of_nodup_map hnd he he2 hp

theorem lookup_eq_of_perm {idx1 idx2 : FileIndex} (hnd : FileIndex.keysNodup idx1)
    (hperm : idx1.Perm idx2) (p : RPath) :
    FileIndex.lookup idx1 p = FileIndex.lookup idx2 p := by
  cases h1 : FileIndex.lookup idx1 p with
  | none =>
    cases h2 : FileIndex.lookup idx2 p with
    | none => rfl
    | some e =>
      have hmem : e ∈ idx1 := hperm.symm.subset (List.mem_of_find?_eq_some h2)
      exact absurd (lookup_some_path h2) (lookup_none_not_mem h1 e hmem)
  | some e =>
    have hmem1 : e ∈ idx1 := List.mem_of_find?_eq_some h1
    have hpath1 := lookup_some_path h1
    cases h2 : FileIndex.lookup idx2 p with
    | none =>
      exact absurd hpath1 (lookup_none_not_mem h2 e (hperm.subset hmem1))
    | some e2 =>
      have hmem2 : e2 ∈ idx1 := hperm.symm.subset (List.mem_of_find?_eq_some h2)
      have hpath2 := lookup_some_path h2
      rw [mem_path_unique hnd hmem1 hmem2 (by rw [hpath1, hpath2])]

theorem localAction_congr (dir : SyncDirection) {r1 r2 : FileIndex}
    (hrc : ∀ p, FileIndex.lookup r1 p = FileIndex.lookup r2 p) :
    localAction dir r1 = localAction dir r2 := by
  funext e
  unfold localAction
  rw [hrc e.path]

theorem remoteAction_congr (dir : SyncDirection) {l1 l2 : FileIndex}
    (hlc : ∀ p, FileIndex.lookup l1 p = FileIndex.lookup l2 p) :
    remoteAction dir l1 = remoteAction dir l2 := by
  funext e
  unfold remoteAction
  rw [hlc e.path]

theorem diff_actions_perm (rule : SyncRule) {l1 l2 r1 r2 : FileIndex}
    (hlN : FileIndex.keysNodup l1) (hrN : FileIndex.keysNodup r1)
    (hl : l1.Perm l2) (hr : r1.Perm r2) :
    (diff_actions rule l1 r1).1.Perm (diff_actions rule l2 r2).1 ∧
    (diff_actions rule l1 r1).2 = (diff_actions rule l2 r2).2 := by
  have hloc : localAction rule.direction r1 = localAction rule.direction r2 :=
    localAction_congr _ (lookup_eq_of_perm hrN hr)
  have hrem : remoteAction rule.direction l1 = remoteAction rule.direction l2 :=
    remoteAction_congr _ (lookup_eq_of_perm hlN hl)
  have hperm : (diff_actions rule l1 r1).1.Perm (diff_actions rule l2 r2).1 := by
    unfold diff_actions
    dsimp only
    rw [hloc, hrem]
    exact (hl.filterMap _).append (hr.filterMap _)
  exact ⟨hperm, foldl_statsAdd_perm hperm PlanStats.zero⟩

/-! ## Claim theorems -/

/-- C1: under the FileIndex key-uniqueness invariant, a path present in
exactly one snapshot receives exactly one action, fixed by the
direction: local-only gives Upload under Push/Bidirectional and
DeleteLocal under Pull; remote-only gives DeleteRemote under Push and
Download under Pull/Bidirectional.  Moreover a Push plan never contains
Download or DeleteLocal actions and a Pull plan never contains Upload or
DeleteRemote actions. -/
theorem claim_C1_single_presence (lp rp p : RPath) (lIdx rIdx : FileIndex)
    (hlN : FileIndex.keysNodup lIdx) (hrN : FileIndex.keysNodup rIdx) :
    (∀ le, FileIndex.lookup lIdx p = some le → FileIndex.lookup rIdx p = none →
      pathActions (diff_actions ⟨lp, rp, .push⟩ lIdx rIdx).1 p = [.upload p le.size] ∧
      pathActions (diff_actions ⟨lp, rp, .bidirectional⟩ lIdx rIdx).1 p =
        [.upload p le.size] ∧
      pathActions (diff_actions ⟨lp, rp, .pull⟩ lIdx rIdx).1 p = [.deleteLocal p]) ∧
    (∀ re, FileIndex.lookup lIdx p = none → FileIndex.lookup rIdx p = some re →
      pathActions (diff_actions ⟨lp, rp, .push⟩ lIdx rIdx).1 p = [.deleteRemote p] ∧
      pathActions (diff_actions ⟨lp, rp, .pull⟩ lIdx rIdx).1 p =
        [.download p re.size] ∧
      pathActions (diff_actions ⟨lp, rp, .bidirectional⟩ lIdx rIdx).1 p =
        [.download p re.size]) ∧
    (∀ a ∈ (diff_actions ⟨lp, rp, .push⟩ lIdx rIdx).1,
      (∀ q s, a ≠ .download q s) ∧ (∀ q, a ≠ .deleteLocal q)) ∧
    (∀ a ∈ (diff_actions ⟨lp, rp, .pull⟩ lIdx rIdx).1,
      (∀ q s, a ≠ .upload q s) ∧ (∀ q, a ≠ .deleteRemote q)) := by
  refine ⟨?_, ?_, ?_, ?_⟩
  · intro le hl hr
    have hp := lookup_some_path hl
    have hfl := filter_path_single hlN hl
    have hfr := filter_path_nil (lookup_none_not_mem hr)
    have hre : FileIndex.lookup rIdx le.path = none := by rw [hp]; exact hr
    refine ⟨?_, ?_, ?_⟩ <;>
      rw [pathActions_diff] <;>
      simp [hfl, hfr, localAction_of_none hre, hp]
  · intro re hl hr
    have hp := lookup_some_path hr
    have hfl := filter_path_nil (lookup_none_not_mem hl)
    have hfr := filter_path_single hrN hr
    have hle : FileIndex.lookup lIdx re.path = none := by rw [hp]; exact hl
    refine ⟨?_, ?_, ?_⟩ <;>
      rw [pathActions_diff] <;>
      simp [hfl, hfr, remoteAction_of_none hle, hp]
  · intro a ha
    rcases diff_mem_cases ha with ⟨e, -, he⟩ | ⟨e, -, he⟩
    · obtain ⟨q, s, rfl⟩ := localAction_push_shape he
      exact ⟨fun _ _ h => SyncAction.noConfusion h,
        fun _ h => SyncAction.noConfusion h⟩
    · obtain ⟨q, rfl⟩ := remoteAction_push_shape he
      exact ⟨fun _ _ h => SyncAction.noConfusion h,
        fun _ h => SyncAction.noConfusion h⟩
  · intro a ha
    rcases diff_mem_cases ha with ⟨e, -, he⟩ | ⟨e, -, he⟩
    · rcases localAction_pull_shape he with ⟨q, rfl⟩ | ⟨q, s, rfl⟩
      · exact ⟨fun _ _ h => SyncAction.noConfusion h,
          fun _ h => SyncAction.noConfusion h⟩
      · exact ⟨fun _ _ h => SyncAction.noConfusion h,
          fun _ h => SyncAction.noConfusion h⟩
    · obtain ⟨q, s, rfl⟩ := remoteAction_pull_shape he
      exact ⟨fun _ _ h => SyncAction.noConfusion h,
        fun _ h => SyncAction.noConfusion h⟩

theorem claim_C1_witness :
    pathActions (diff_actions ⟨⟨false, []⟩, ⟨true, []⟩, .push⟩
        [⟨⟨false, ["w"]⟩, .file, 3, 0⟩] []).1 ⟨false, ["w"]⟩ =
      [.upload ⟨false, ["w"]⟩ 3] :=
  (((claim_C1_single_presence ⟨false, []⟩ ⟨true, []⟩ ⟨false, ["w"]⟩
      [⟨⟨false, ["w"]⟩, .file, 3, 0⟩] [] (by decide) (by decide)).1
    ⟨⟨false, ["w"]⟩, .file, 3, 0⟩ (by decide) (by decide)).1)

/-- C2: under the key-uniqueness invariant, for a path present in both
snapshots (`newer a b` meaning timestamp `a` exceeds `b` by strictly
more than 500 ms): Push emits an Upload for the path iff the local entry
is newer; Pull emits a Download iff the remote entry is newer;
Bidirectional emits Upload/Download/Conflict/nothing according to the
(local-newer, remote-newer) pair; and no Conflict action ever appears
under Push or Pull. -/
theorem claim_C2_both_present (lp rp p : RPath) (lIdx rIdx : FileIndex)
    (le re : FileEntry)
    (hlN : FileIndex.keysNodup lIdx) (hrN : FileIndex.keysNodup rIdx)
    (hl : FileIndex.lookup lIdx p = some le)
    (hr : FileIndex.lookup rIdx p = some re) :
    pathActions (diff_actions ⟨lp, rp, .push⟩ lIdx rIdx).1 p =
      (if newer le.modified re.modified then [.upload p le.size] else []) ∧
    pathActions (diff_actions ⟨lp, rp, .pull⟩ lIdx rIdx).1 p =
      (if newer re.modified le.modified then [.download p re.size] else []) ∧
    pathActions (diff_actions ⟨lp, rp, .bidirectional⟩ lIdx rIdx).1 p =
      (match newer le.modified re.modified, newer re.modified le.modified with
        | true, false => [.upload p le.size]
        | false, true => [.download p re.size]
        | true, true => [.conflict p]
        | false, false => []) ∧
    (∀ a ∈ (diff_actions ⟨lp, rp, .push⟩ lIdx rIdx).1, ∀ q, a ≠ .conflict q) ∧
    (∀ a ∈ (diff_actions ⟨lp, rp, .pull⟩ lIdx rIdx).1, ∀ q, a ≠ .conflict q) := by
  have hpl := lookup_some_path hl
  have hpr := lookup_some_path hr
  have hfl := filter_path_single hlN hl
  have hfr := filter_path_single hrN hr
  have hre2 : FileIndex.lookup rIdx le.path = some re := by rw [hpl]; exact hr
  have hle2 : FileIndex.lookup lIdx re.path = some le := by rw [hpr]; exact hl
  refine ⟨?_, ?_, ?_, ?_, ?_⟩
  · rw [pathActions_diff]
    by_cases hn : newer le.modified re.modified <;>
      simp [hfl, hfr, localAction_of_some hre2, remoteAction_of_some hle2, hpl, hn]
  · rw [pathActions_diff]
    by_cases hn : newer re.modified le.modified <;>
      simp [hfl, hfr, localAction_of_some hre2, remoteAction_of_some hle2, hpl, hn]
  · rw [pathActions_diff]
    cases hb1 : newer le.modified re.modified <;>
      cases hb2 : newer re.modified le.modified <;>
      simp [hfl, hfr, localAction_of_some hre2, remoteAction_of_some hle2, hpl,
        hb1, hb2]
  · intro a ha q
    rcases diff_mem_cases ha with ⟨e, -, he⟩ | ⟨e, -, he⟩
    · obtain ⟨q', s', rfl⟩ := localAction_push_shape he
      exact fun h => SyncAction.noConfusion h
    · obtain ⟨q', rfl⟩ := remoteAction_push_shape he
      exact fun h => SyncAction.noConfusion h
  · intro a ha q
    rcases diff_mem_cases ha with ⟨e, -, he⟩ | ⟨e, -, he⟩
    · rcases localAction_pull_shape he with ⟨q', rfl⟩ | ⟨q', s', rfl⟩
      · exact fun h => SyncAction.noConfusion h
      · exact fun h => SyncAction.noConfusion h
    · obtain ⟨q', s', rfl⟩ := remoteAction_pull_shape he
      exact fun h => SyncAction.noConfusion h

theorem hexDigit_mem_of_lt : ∀ n < 16, hexDigit n ∈ "0123456789abcdef".data := by
  decide

theorem byteToHex_chars {b : Nat} (c : Char) (hc : c ∈ (byteToHex b).data) :
    c ∈ "0123456789abcdef".data := by
  unfold byteToHex at hc
  rcases hc with _ | ⟨_, hc⟩
  · exact hexDigit_mem_of_lt _ (Nat.mod_lt _ (by decide))
  · rcases hc with _ | ⟨_, hc⟩
    · exact hexDigit_mem_of_lt _ (Nat.mod_lt _ (by decide))
    · cases hc

/-- C4: trust-on-first-use.  A hostname with no stored entry gets the
presented fingerprint recorded (lookup afterwards finds it) and reported
as New; an equal stored fingerprint reports Match; an unequal one
reports Mismatch carrying the stored and the presented fingerprint,
leaving the store unchanged, and `establish_session` then fails, so no
session is produced after a mismatch.  The fingerprint is the
byte-by-byte lowercase-hex encoding of the SHA-256 digest of the raw
key (every character is a lowercase hex digit). -/
theorem claim_C4_trust_on_first_use (sha256 : Bytes → Bytes) (hosts : KnownHosts)
    (host fp stored : String) (rawKey : Bytes) (authResult : Except String Unit) :
    (KnownHosts.lookup hosts host = none →
      verify_host hosts host fp = (.hnew, KnownHosts.insertEntry hosts host fp) ∧
      KnownHosts.lookup (KnownHosts.insertEntry hosts host fp) host = some fp) ∧
    (KnownHosts.lookup hosts host = some fp →
      verify_host hosts host fp = (.hmatch, hosts)) ∧
    (KnownHosts.lookup hosts host = some stored → stored ≠ fp →
      verify_host hosts host fp = (.mismatch stored fp, hosts)) ∧
    (KnownHosts.lookup hosts host = some stored →
      stored ≠ fingerprint_from_raw sha256 rawKey →
      establish_session sha256 hosts host (some rawKey) authResult =
        .error ("host key mismatch for " ++ host ++ ". expected " ++ stored ++
          ", got " ++ fingerprint_from_raw sha256 rawKey)) ∧
    (∀ c ∈ (fingerprint_from_raw sha256 rawKey).data,
      c ∈ "0123456789abcdef".data) := by
  refine ⟨?_, ?_, ?_, ?_, ?_⟩
  · intro hnone
    have hfind : hosts.find? (fun kv => kv.1 == host) = none := by
      unfold KnownHosts.lookup at hnone
      exact Option.map_eq_none'.mp hnone
    constructor
    · unfold verify_host
      rw [hnone]
    · unfold KnownHosts.insertEntry
      rw [hfind]
      simp [KnownHosts.lookup, List.find?_append, hfind]
  · intro hsome
    unfold verify_host
    rw [hsome]
    simp
  · intro hsome hne
    unfold verify_host
    rw [hsome]
    simp [hne]
  · intro hsome hne
    have hv : verify_host hosts host (fingerprint_from_raw sha256 rawKey) =
        (.mismatch stored (fingerprint_from_raw sha256 rawKey), hosts) := by
      unfold verify_host
      rw [hsome]
      simp [hne]
    simp only [establish_session]
    rw [hv]
  · intro c hc
    unfold fingerprint_from_raw at hc
    rw [String.data_join] at hc
    rw [List.mem_flatten] at hc
    obtain ⟨l, hl, hcl⟩ := hc
    rw [List.map_map, List.mem_map] at hl
    obtain ⟨b, -, rfl⟩ := hl
    exact byteToHex_chars c hcl

theorem claim_C4_witness :
    establish_session (fun b => b) [("h", "aa")] "h" (some [171]) (.ok ()) =
      .error ("host key mismatch for " ++ "h" ++ ". expected " ++ "aa" ++ ", got " ++
        fingerprint_from_raw (fun b => b) [171]) :=
  (claim_C4_trust_on_first_use (fun b => b) [("h", "aa")] "h" "x" "aa" [171]
      (.ok ())).2.2.2.1 (by decide) (by decide)

theorem sub_rclamp (L d : ℚ) (hL : 0 ≤ L) (hd : 0 ≤ d) :
    L - rclamp d 0 L = rclamp (L - d) 0 L := by
  unfold rclamp
  rcases le_total d L with h | h
  · rw [max_eq_left hd, min_eq_left h, max_eq_left (by linarith),
      min_eq_left (by linarith)]
  · rw [max_eq_left hd, min_eq_right h, max_eq_right (by linarith), min_eq_left hL]
    exact sub_self L

/-- C7: `consume` implements a token bucket whose cap is the configured
rate.  Writing `grown` for the allowance after accrual — the stored
allowance plus elapsed·rate, capped at the rate — a request of at most
`grown` bytes subtracts the bytes and sleeps zero seconds; a larger
request sleeps `deficit / rate` seconds (deficit = bytes − grown) and
leaves the allowance at `cap − deficit` clamped into `[0, cap]`. -/
theorem claim_C7_token_bucket (st : BandwidthLimiter) (elapsed bytes : ℚ)
    (hlim : 0 < st.limit_per_sec) :
    (bytes ≤ min (st.allowance + elapsed * st.limit_per_sec) st.limit_per_sec →
      st.consume elapsed bytes =
        ({ st with allowance := min (st.allowance + elapsed * st.limit_per_sec) st.limit_per_sec - bytes }, 0)) ∧
    (min (st.allowance + elapsed * st.limit_per_sec) st.limit_per_sec < bytes →
      st.consume elapsed bytes =
        ({ st with allowance := rclamp (st.limit_per_sec - (bytes - min (st.allowance + elapsed * st.limit_per_sec) st.limit_per_sec)) 0 st.limit_per_sec },
          (bytes - min (st.allowance + elapsed * st.limit_per_sec)
              st.limit_per_sec) / st.limit_per_sec)) := by
  constructor
  · intro hle
    unfold BandwidthLimiter.consume
    rw [if_pos hle]
  · intro hlt
    have hd : 0 < bytes - min (st.allowance + elapsed * st.limit_per_sec)
        st.limit_per_sec := by linarith
    unfold BandwidthLimiter.consume
    rw [if_neg (not_le.mpr hlt)]
    have hsleep : 0 < (bytes - min (st.allowance + elapsed * st.limit_per_sec)
        st.limit_per_sec) / st.limit_per_sec := div_pos hd hlim
    dsimp only
    rw [if_pos hsleep, sub_rclamp _ _ (le_of_lt hlim) (le_of_lt hd)]

theorem claim_C7_witness :
    (0:ℚ) < (100:ℚ) ∧
    BandwidthLimiter.consume ⟨100, 10⟩ 0 50 = (⟨100, 60⟩, 2/5) := by
  refine ⟨by norm_num, ?_⟩
  have h := (claim_C7_token_bucket ⟨100, 10⟩ 0 50 (by norm_num)).2
    (by norm_num [min_def])
  rw [h]
  norm_num [rclamp, min_def, max_def]

theorem claim_C2_witness :
    pathActions (diff_actions ⟨⟨false, []⟩, ⟨true, []⟩, .push⟩
        [⟨⟨false, ["w"]⟩, .file, 1, 1000⟩] [⟨⟨false, ["w"]⟩, .file, 2, 0⟩]).1
      ⟨false, ["w"]⟩ =
      (if newer 1000 0 then [.upload ⟨false, ["w"]⟩ 1] else []) :=
  ((claim_C2_both_present ⟨false, []⟩ ⟨true, []⟩ ⟨false, ["w"]⟩
      [⟨⟨false, ["w"]⟩, .file, 1, 1000⟩] [⟨⟨false, ["w"]⟩, .file, 2, 0⟩]
      ⟨⟨false, ["w"]⟩, .file, 1, 1000⟩ ⟨⟨false, ["w"]⟩, .file, 2, 0⟩
      (by decide) (by decide) (by decide) (by decide)).1)

/-- C6: `resolve_remote_root` returns the rule path unchanged when it is
absolute, the base path when the rule path is empty, and otherwise the
base path joined with the rule path; in particular `/srv/www` with
`apps/web` gives `/srv/www/apps/web`, the absolute `/data` passes
through, and the empty rule path gives the base path verbatim.  (When
the base path itself is empty, the source returns the rule path early,
which coincides with joining onto the empty base.) -/
theorem claim_C6_resolve_remote_root (base_path rule_remote : RPath) :
    resolve_remote_root base_path rule_remote =
      (if rule_remote.absolute then rule_remote
        else if rule_remote.isEmptyPath then base_path
        else base_path.join rule_remote) ∧
    resolve_remote_root ⟨true, ["srv", "www"]⟩ ⟨false, ["apps", "web"]⟩ =
      ⟨true, ["srv", "www", "apps", "web"]⟩ ∧
    resolve_remote_root ⟨true, ["srv", "www"]⟩ ⟨true, ["data"]⟩ = ⟨true, ["data"]⟩ ∧
    resolve_remote_root ⟨true, ["srv", "www"]⟩ ⟨false, []⟩ = ⟨true, ["srv", "www"]⟩ := by
  refine ⟨?_, by decide, by decide, by decide⟩
  unfold resolve_remote_root
  by_cases h1 : rule_remote.absolute
  · simp [h1]
  · simp only [h1, Bool.false_eq_true, if_false]
    by_cases h2 : base_path.isEmptyPath
    · have hbase := RPath.eq_empty_of_isEmptyPath h2
      by_cases h3 : rule_remote.isEmptyPath
      · have hrr := RPath.eq_empty_of_isEmptyPath h3
        subst hbase
        subst hrr
        decide
      · have h1' : rule_remote.absolute = false := by
          cases hab : rule_remote.absolute
          · rfl
          · exact absurd hab h1
        simp [h2, h3, hbase, RPath.join_empty_left h1']
    · simp [h2]

/-- C5 counterexample: the claim's "same actions in the same order" fails
on the code, because the order in which `diff_actions` receives the index
entries is the HashMap's seed-dependent iteration order, not a function
of the listing results.  Here two runs of plan on identical listing
results — one iterating the built index in insertion order, one in the
reversed order, which presents the same index contents (the permutation
conjunct) — produce the same upload actions in different orders. -/
theorem claim_C5_counterexample :
    (List.reverse (index_entries
        [⟨⟨false, ["a"]⟩, .file, 1, 0⟩, ⟨⟨false, ["b"]⟩, .file, 2, 0⟩])).Perm
      (index_entries
        [⟨⟨false, ["a"]⟩, .file, 1, 0⟩, ⟨⟨false, ["b"]⟩, .file, 2, 0⟩]) ∧
    (SyncPlanner.planRun List.reverse List.reverse
        (fun _ => .ok [⟨⟨false, ["a"]⟩, .file, 1, 0⟩, ⟨⟨false, ["b"]⟩, .file, 2, 0⟩])
        (fun _ => .ok [])
        ⟨⟨false, []⟩, ⟨true, []⟩, .push⟩).toOption.map SyncPlan.actions ≠
      (SyncPlanner.planRun id id
        (fun _ => .ok [⟨⟨false, ["a"]⟩, .file, 1, 0⟩, ⟨⟨false, ["b"]⟩, .file, 2, 0⟩])
        (fun _ => .ok [])
        ⟨⟨false, []⟩, ⟨true, []⟩, .push⟩).toOption.map SyncPlan.actions := by
  constructor
  · decide
  · decide

/-- C5 amended: planning is deterministic up to HashMap iteration order.
A run of plan is a pure function of the listing results together with
the iteration orders of the two built indexes: equal listings and equal
iteration orders give identical plans (action list and stats alike);
and across different iteration orders — any reorderings presenting the
same index contents — the two runs agree on the stats and on the
actions as a multiset, though not necessarily on their order. -/
theorem claim_C5_plan_deterministic_up_to_order (rule : SyncRule)
    (localIter remoteIter : FileIndex → FileIndex)
    (localList1 localList2 remoteList1 remoteList2 : RPath → Except String (List FileEntry))
    (l1 l2 r1 r2 : FileIndex)
    (hL : localList1 rule.localRoot = localList2 rule.localRoot)
    (hR : remoteList1 rule.remoteRoot = remoteList2 rule.remoteRoot)
    (hlN : FileIndex.keysNodup l1) (hrN : FileIndex.keysNodup r1)
    (hl : l1.Perm l2) (hr : r1.Perm r2) :
    SyncPlanner.planRun localIter remoteIter localList1 remoteList1 rule =
      SyncPlanner.planRun localIter remoteIter localList2 remoteList2 rule ∧
    (diff_actions rule l1 r1).1.Perm (diff_actions rule l2 r2).1 ∧
    (diff_actions rule l1 r1).2 = (diff_actions rule l2 r2).2 := by
  refine ⟨?_, diff_actions_perm rule hlN hrN hl hr⟩
  unfold SyncPlanner.planRun
  rw [hL, hR]

theorem claim_C5_amended_witness :
    (diff_actions ⟨⟨false, []⟩, ⟨true, []⟩, .push⟩
        [⟨⟨false, ["a"]⟩, .file, 1, 0⟩, ⟨⟨false, ["b"]⟩, .file, 2, 0⟩] []).2 =
      (diff_actions ⟨⟨false, []⟩, ⟨true, []⟩, .push⟩
        [⟨⟨false, ["b"]⟩, .file, 2, 0⟩, ⟨⟨false, ["a"]⟩, .file, 1, 0⟩] []).2 :=
  (claim_C5_plan_deterministic_up_to_order ⟨⟨false, []⟩, ⟨true, []⟩, .push⟩
      id id (fun _ => .ok []) (fun _ => .ok []) (fun _ => .ok []) (fun _ => .ok [])
      [⟨⟨false, ["a"]⟩, .file, 1, 0⟩, ⟨⟨false, ["b"]⟩, .file, 2, 0⟩]
      [⟨⟨false, ["b"]⟩, .file, 2, 0⟩, ⟨⟨false, ["a"]⟩, .file, 1, 0⟩] [] []
      rfl rfl (by decide) (by decide) (by decide) (by decide)).2.2

/-- C3: `execute` yields one `ExecutionLog` per action of the plan, in
plan order (so the log has the plan's length and one action's failure
never suppresses the logs of the remaining actions); a Conflict action
yields `SkippedConflict` and issues no store operation. -/
theorem claim_C3_execute_logs (localS remoteS : StoreModel) (plan : SyncPlan) :
    (SyncExecutor.execute localS remoteS plan).map (fun log => log.action) =
      plan.actions ∧
    (SyncExecutor.execute localS remoteS plan).length = plan.actions.length ∧
    (∀ p, runAction localS remoteS plan.rule (.conflict p) = (.skippedConflict, [])) ∧
    (∀ log ∈ SyncExecutor.execute localS remoteS plan, ∀ q,
      log.action = .conflict q → log.status = .skippedConflict) := by
  refine ⟨?_, ?_, fun p => rfl, ?_⟩
  · unfold SyncExecutor.execute
    rw [List.map_map]
    exact List.map_id' plan.actions
  · simp [SyncExecutor.execute]
  · intro log hlog q hq
    simp only [SyncExecutor.execute, List.mem_map] at hlog
    obtain ⟨a, _, rfl⟩ := hlog
    simp only at hq
    subst hq
    rfl

/-- C9: when the transport reports no host key, `establish_session`
skips host verification entirely — the trust store is passed through
untouched and the outcome is decided by authentication alone — so a
session can be established (here with an empty trust store) without any
trust-on-first-use check. -/
theorem claim_C9_no_host_key (sha256 : Bytes → Bytes) (hosts : KnownHosts)
    (host : String) (authResult : Except String Unit) :
    establish_session sha256 hosts host none authResult =
      (match authResult with
        | .ok _ => .ok (hosts, ())
        | .error e => .error e) ∧
    establish_session sha256 [] host none (.ok ()) = .ok ([], ()) := by
  refine ⟨?_, rfl⟩
  cases authResult <;> rfl

/-- C10: executing an empty jobs slice returns `Ok` with the default
(all-zero) summary after the single progress report `(1, 1)`, with no
store operation issued and with an outcome independent of the connection
oracle (the connection is never attempted). -/
theorem claim_C10_empty_jobs (connect : Except String Unit)
    (localS remoteS : StoreModel) (bandwidth_limit_mbps : Option Nat) :
    execute_jobs_with_progress connect localS remoteS bandwidth_limit_mbps [] =
      ([(1, 1)], [], .ok ExecutionSummary.zero) ∧
    ExecutionSummary.zero = ⟨0, 0, []⟩ := by
  exact ⟨rfl, rfl⟩

/-- C8: per-rule planning failures become warnings and do not stop the
remaining rules — the successful rules' jobs are all returned in order —
and (given a successful connection) the function errors exactly when no
rule produced a job, returning `Ok` with every planned job plus the
accumulated warnings otherwise. -/
theorem claim_C8_plan_jobs (Job : Type) (connect : Except String Unit)
    (planRule : SyncRule → Except String Job) (targetName : String)
    (rules : List SyncRule) :
    plan_jobs_with_progress Job connect planRule targetName rules =
      (match connect with
        | .error e => .error e
        | .ok _ =>
          if (rules.filterMap (fun r => (planRule r).toOption)).isEmpty then
            .error ("no sync plan could be generated for " ++ targetName)
          else
            .ok ⟨rules.filterMap (fun r => (planRule r).toOption),
              rules.filterMap (fun r =>
                match planRule r with
                | .ok _ => none
                | .error e => some (planWarning targetName r e))⟩) := by
  cases connect with
  | error e => rfl
  | ok _ =>
    simp only [plan_jobs_with_progress, planLoop_eq_filterMap]

end SftpSync
